import Mathlib

/-!
Shallow embedding of `src/client.cpp` (namespace `libchess::console`) of the
chess console client.

The file translates the client's lifecycle, locking discipline, command
dispatch and board-rendering code into executable Lean definitions, and then
proves the claims of the specification about them.

External collaborators (the chess engine, the board type, the renderer, the
console and the command dispatcher) are not part of `src/`; following the
spec, they are modelled as abstract parameters or as event emissions: every
call the client makes into a collaborator gateway is recorded as an `Effect`
in an explicit trace, so that "no render call occurs", "a callback is
registered", etc. become statements about traces.
-/

set_option autoImplicit false

namespace libchess.console

/-- Modelled from the spec: `coord` (util coordinate type, not under `src/`) is an
immutable value type of two signed integers with componentwise addition and a
taxicab length (sum of absolute components). -/
structure coord where
  x : Int
  y : Int
deriving DecidableEq, Repr

/-- Componentwise addition, `operator+` of `coord`. -/
def coord.add (a b : coord) : coord := coord.mk (a.x + b.x) (a.y + b.y)

instance : Add coord := ⟨coord.add⟩

/-- Taxicab length: sum of the absolute values of the components. -/
def coord.taxicab_length (c : coord) : Nat := c.x.natAbs + c.y.natAbs

namespace board

/-- Modelled from the spec: `board::width`, the fixed board geometry constant, is 8
(the board header is not under `src/`; the spec fixes the width at 8). -/
def width : Nat := 8

end board

/-- Modelled from the spec: the console colors used by the client are the two
abstract tokens `color_black` and `color_white` (`renderer.h` is not under `src/`);
only which of the two is chosen matters to the client code. -/
inductive console_color where
  | black : console_color
  | white : console_color
deriving DecidableEq, Repr

def color_black : console_color := console_color.black

def color_white : console_color := console_color.white

/-- One call to `renderer::render(position, glyph, fg, bg)`; the renderer's default
color arguments are represented by `none`. -/
structure render_event where
  pos : coord
  glyph : Char
  fg : Option console_color
  bg : Option console_color
deriving DecidableEq, Repr

/-- An observable call from the client into one of its collaborator gateways. -/
inductive effect where
  | add_key_callback : effect
  | remove_key_callback : effect
  | console_create : effect
  | set_accept_input : Bool → effect
  | render : render_event → effect
  | set_board : effect
  | add_alias : String → effect
  | set_callback : effect
  | process_keystroke : Char → effect
deriving DecidableEq, Repr

namespace client

section rendering

variable {P : Type}

/-- The body of the piece-drawing loop of `client::redraw_board` at board
coordinate `(x, y)`: tile parity from the taxicab length, checkerboard colors,
piece lookup through the engine (`get_piece`, abstract), serialization with a
blank fallback (`util::serialize_piece(piece).value_or(' ')`, abstract), and the
board-to-screen position `offset + coord(1 + x*2, 1 + (width - (y+1))*2)`. -/
def piece_tile (serialize_piece : P → Option Char) (get_piece : coord → P)
    (offset : coord) (x y : Int) : render_event :=
  let lc : coord := coord.mk x y
  let is_tile_white : Bool := lc.taxicab_length % 2 != 0
  let fg : console_color := if is_tile_white then color_black else color_white
  let bg : console_color := if is_tile_white then color_white else color_black
  let piece : P := get_piece lc
  let character : Char := (serialize_piece piece).getD ' '
  let global : coord := offset + coord.mk (1 + x * 2) (1 + ((board.width : Int) - (y + 1)) * 2)
  render_event.mk global character (some fg) (some bg)

/-- The piece-drawing pass of `client::redraw_board`: `for x in [0, width)`,
`for y in [0, width)`, one render call per square. -/
def redraw_board_pieces (serialize_piece : P → Option Char) (get_piece : coord → P)
    (offset : coord) : List render_event :=
  (List.range board.width).flatMap fun x =>
    (List.range board.width).flatMap fun y =>
      [piece_tile serialize_piece get_piece offset (x : Int) (y : Int)]

/-- The "lines" section of `client::redraw_board_frame`:
`for i in [0, width]`, `for j in [0, width)`, a vertical double-line segment at
`offset + (i*2, 1 + j*2)` and a horizontal one at `offset + (1 + j*2, i*2)`. -/
def frame_lines (offset : coord) : List render_event :=
  (List.range (board.width + 1)).flatMap fun i =>
    (List.range board.width).flatMap fun j =>
      let coord_0 : Int := (i : Int) * 2
      let coord_1 : Int := 1 + (j : Int) * 2
      [render_event.mk (offset + coord.mk coord_0 coord_1) '║' none none,
       render_event.mk (offset + coord.mk coord_1 coord_0) '═' none none]

/-- The "intersections" section of `client::redraw_board_frame`:
`for i, j in [0, width-1)`, a four-way intersection at `offset + (2 + i*2, 2 + j*2)`. -/
def frame_intersections (offset : coord) : List render_event :=
  (List.range (board.width - 1)).flatMap fun i =>
    (List.range (board.width - 1)).flatMap fun j =>
      [render_event.mk (offset + coord.mk (2 + (i : Int) * 2) (2 + (j : Int) * 2)) '╬' none none]

/-- The "corners" section of `client::redraw_board_frame`. -/
def frame_corners (offset : coord) : List render_event :=
  [render_event.mk (offset + coord.mk 0 0) '╔' none none,
   render_event.mk (offset + coord.mk ((board.width : Int) * 2) 0) '╗' none none,
   render_event.mk (offset + coord.mk 0 ((board.width : Int) * 2)) '╚' none none,
   render_event.mk (offset + coord.mk ((board.width : Int) * 2) ((board.width : Int) * 2)) '╝' none none]

/-- The "edge intersections" section of `client::redraw_board_frame`:
`for i in [0, width-1)`, with `c = 2 + i*2`, T-intersections on the four borders. -/
def frame_edges (offset : coord) : List render_event :=
  (List.range (board.width - 1)).flatMap fun i =>
    let c : Int := 2 + (i : Int) * 2
    [render_event.mk (offset + coord.mk c 0) '╦' none none,
     render_event.mk (offset + coord.mk c ((board.width : Int) * 2)) '╩' none none,
     render_event.mk (offset + coord.mk 0 c) '╠' none none,
     render_event.mk (offset + coord.mk ((board.width : Int) * 2) c) '╣' none none]

/-- Embeds `client::redraw_board_frame`: the four sections in source order. -/
def redraw_board_frame (offset : coord) : List render_event :=
  frame_lines offset ++ frame_intersections offset ++ frame_corners offset ++ frame_edges offset

/-- Embeds `client::redraw_board`: the frame pass followed by the piece pass. -/
def redraw_board (serialize_piece : P → Option Char) (get_piece : coord → P)
    (offset : coord) : List render_event :=
  redraw_board_frame offset ++ redraw_board_pieces serialize_piece get_piece offset

/-- Embeds `client::redraw`: redraw the board at offset `coord(0, 0)`. -/
def redraw (serialize_piece : P → Option Char) (get_piece : coord → P) : List render_event :=
  redraw_board serialize_piece get_piece (coord.mk 0 0)

end rendering

section lifecycle

variable {B P : Type}

/-- The client-owned mutable state: the engine's board (`m_engine`'s board, set via
`set_board`) and the `m_should_quit` flag. The console handle and the key-callback
handle are tracked through the effect trace. -/
structure state (B : Type) where
  board : B
  m_should_quit : Bool
deriving DecidableEq, Repr

/-- Embeds the `client::client()` constructor: create the default board and set it on
the engine, register the key callback with the renderer, clear `m_should_quit`, and
create the game console — in that order. -/
def ctor (create_default : B) : state B × List effect :=
  (state.mk create_default false,
   [effect.set_board, effect.add_key_callback, effect.console_create])

/-- Embeds `client::load_fen`: under the client mutex, ask `board::create` (abstract
validator `board_create`) for a board; on failure return `false` and leave the state
alone, otherwise set the engine board and return `true`. -/
def load_fen (board_create : String → Option B) (s : state B) (fen : String) :
    Bool × state B × List effect :=
  match board_create fen with
  | none => (false, s, [])
  | some b => (true, state.mk b s.m_should_quit, [effect.set_board])

/-- Embeds `client::register_commands`: a `command_factory` on the console, one alias
`"quit"`, and the bound callback. -/
def register_commands : List effect :=
  [effect.add_alias "quit", effect.set_callback]

/-- Embeds `client::create`: construct the client (the constructor always runs first),
then, if an initial position is supplied and fails validation, reset the pointer —
which runs the destructor and removes the key callback; if the client survives,
register commands, redraw, and switch the console to accepting input. Returns the
optional instance and the trace of gateway effects. -/
def create (board_create : String → Option B) (create_default : B)
    (serialize_piece : P → Option Char) (get_piece : B → coord → P)
    (fen : Option String) : Option (state B) × List effect :=
  let c0 := ctor create_default
  match fen with
  | some f =>
    let r := load_fen board_create c0.1 f
    if r.1 then
      (some r.2.1,
       c0.2 ++ r.2.2 ++ register_commands ++
         (redraw serialize_piece (get_piece r.2.1.board)).map effect.render ++
         [effect.set_accept_input true])
    else
      (none, c0.2 ++ r.2.2 ++ [effect.remove_key_callback])
  | none =>
    (some c0.1,
     c0.2 ++ register_commands ++
       (redraw serialize_piece (get_piece c0.1.board)).map effect.render ++
       [effect.set_accept_input true])

/-- Embeds `client::should_quit`: under the client mutex, read `m_should_quit`. -/
def should_quit (s : state B) : Bool := s.m_should_quit

/-- Embeds `client::command_quit`: assign `true` to `m_should_quit`; the argument
list is unused. -/
def command_quit (args : List String) (s : state B) : state B :=
  state.mk s.board true

end lifecycle

section commands

variable {B E : Type}

/-- Embeds the `console_lock` RAII guard composed with a command body, i.e. the
wrapper produced by `BIND_CLIENT_COMMAND(func)`: on entry the constructor calls
`set_accept_input(false)`; then the bound function runs (possibly signalling an
error, modelled by `Except`); on scope exit the destructor unconditionally calls
`set_accept_input(true)`, on the normal and on the error path alike. -/
def bind_client_command (func : List String → state B → Except E (state B) × List effect)
    (args : List String) (s : state B) : Except E (state B) × List effect :=
  let r := func args s
  (r.1, effect.set_accept_input false :: r.2 ++ [effect.set_accept_input true])

/-- The `quit` command as registered by `register_commands`: `command_quit` bound
through `BIND_CLIENT_COMMAND`. `client::command_quit` is a plain assignment and
signals no error, so its body returns `Except.ok` and emits no gateway effect. -/
def quit_dispatched (args : List String) (s : state B) : Except E (state B) × List effect :=
  bind_client_command (fun a st => (Except.ok (command_quit a st), [])) args s

/-- The console's accept-input flag after a trace of effects, starting from `init`:
each `set_accept_input b` overwrites it, every other effect leaves it unchanged. -/
def accept_after (init : Bool) : List effect → Bool
  | [] => init
  | effect.set_accept_input b :: rest => accept_after b rest
  | _ :: rest => accept_after init rest

end commands

section locking

/-- The kind of a client-state access appearing in `src/client.cpp`. -/
inductive access_kind where
  | engine_write : access_kind
  | quit_write : access_kind
  | quit_read : access_kind
  | console_use : access_kind
deriving DecidableEq, Repr

/-- One access to client-owned mutable state, together with whether a
`util::mutex_lock` on `m_mutex` is in scope at that program point. -/
structure access where
  kind : access_kind
  mutex_held : Bool
deriving DecidableEq, Repr

/-- Accesses of `client_callback_delegate::key_callback`: it constructs
`util::mutex_lock lock(m_this->m_mutex)` and then uses the console handle
(`m_console->process_keystroke`). -/
def key_callback_accesses : List access :=
  [access.mk access_kind.console_use true]

/-- Accesses of `client::should_quit`: it locks `m_mutex` and reads
`m_should_quit`. -/
def should_quit_accesses : List access :=
  [access.mk access_kind.quit_read true]

/-- Accesses of `client::load_fen`: it locks `m_mutex` and (on the success path)
writes the engine board via `m_engine.set_board`. -/
def load_fen_accesses : List access :=
  [access.mk access_kind.engine_write true]

/-- Accesses of the dispatched `quit` command: `BIND_CLIENT_COMMAND` constructs a
`console_lock` (which only toggles the console's accept-input flag) and calls
`client::command_quit`, which assigns `m_should_quit = true`; no `util::mutex_lock`
on `m_mutex` is in scope anywhere on that path. -/
def command_quit_accesses : List access :=
  [access.mk access_kind.quit_write false]

/-- All client-state accesses of the operations named by the spec's locking
discipline. -/
def client_accesses : List access :=
  key_callback_accesses ++ should_quit_accesses ++ load_fen_accesses ++
    command_quit_accesses

end locking

end client

section instances

/-- A concrete board validator that accepts every position string (trivial board). -/
def accept_all_boards : String → Option Unit := fun _ => some ()

/-- A concrete board validator that rejects every position string. -/
def reject_all_boards : String → Option Unit := fun _ => none

/-- A concrete piece serializer that reports every square as empty. -/
def empty_serializer : Unit → Option Char := fun _ => none

/-- A concrete engine piece query over the trivial board. -/
def trivial_get_piece : Unit → coord → Unit := fun _ _ => ()

/-- The trivial engine piece query with the board already applied. -/
def trivial_engine : coord → Unit := fun _ => ()

/-- A concrete command body that signals an error and emits no gateway effect. -/
def failing_command : List String → client.state Unit → Except String (client.state Unit) × List effect :=
  fun _ _ => (Except.error "command failed", [])

end instances

/-! ## Theorems -/

@[simp] theorem coord.add_x (a b : coord) : (a + b).x = a.x + b.x := rfl

@[simp] theorem coord.add_y (a b : coord) : (a + b).y = a.y + b.y := rfl

@[ext] theorem coord.ext {a b : coord} (hx : a.x = b.x) (hy : a.y = b.y) : a = b := by
  cases a; cases b; cases hx; cases hy; rfl

theorem length_flatMap_const {α β : Type} (l : List α) (f : α → List β) (c : Nat)
    (h : ∀ a, (f a).length = c) : (l.flatMap f).length = l.length * c := by
  induction l with
  | nil => simp
  | cons a t ih => simp [List.flatMap_cons, h, ih, Nat.succ_mul, Nat.add_comm]

theorem piece_tile_pos {P : Type} (sz : P → Option Char) (gp : coord → P)
    (offset : coord) (x y : Int) :
    (client.piece_tile sz gp offset x y).pos
      = offset + coord.mk (1 + x * 2) (1 + ((board.width : Int) - (y + 1)) * 2) := rfl

theorem piece_tile_fg {P : Type} (sz : P → Option Char) (gp : coord → P)
    (offset : coord) (x y : Int) :
    (client.piece_tile sz gp offset x y).fg
      = some (if (coord.mk x y).taxicab_length % 2 != 0 then color_black else color_white) := rfl

theorem piece_tile_bg {P : Type} (sz : P → Option Char) (gp : coord → P)
    (offset : coord) (x y : Int) :
    (client.piece_tile sz gp offset x y).bg
      = some (if (coord.mk x y).taxicab_length % 2 != 0 then color_white else color_black) := rfl

theorem piece_tile_glyph {P : Type} (sz : P → Option Char) (gp : coord → P)
    (offset : coord) (x y : Int) :
    (client.piece_tile sz gp offset x y).glyph = (sz (gp (coord.mk x y))).getD ' ' := rfl

theorem taxicab_toNat (x y : Int) (hx : 0 ≤ x) (hy : 0 ≤ y) :
    (coord.mk x y).taxicab_length = (x + y).toNat := by
  simp only [coord.taxicab_length]
  omega

theorem piece_tile_colors {P : Type} (sz : P → Option Char) (gp : coord → P)
    (offset : coord) (x y : Int) (hx : 0 ≤ x) (hy : 0 ≤ y) :
    ((x + y) % 2 = 1 →
        (client.piece_tile sz gp offset x y).fg = some color_black ∧
        (client.piece_tile sz gp offset x y).bg = some color_white)
  ∧ ((x + y) % 2 = 0 →
        (client.piece_tile sz gp offset x y).fg = some color_white ∧
        (client.piece_tile sz gp offset x y).bg = some color_black) := by
  constructor
  · intro hp
    have hb : ((coord.mk x y).taxicab_length % 2 != 0) = true := by
      rw [taxicab_toNat x y hx hy]
      simp only [bne_iff_ne, ne_eq]
      omega
    rw [piece_tile_fg, piece_tile_bg, hb]
    exact ⟨rfl, rfl⟩
  · intro hp
    have hb : ((coord.mk x y).taxicab_length % 2 != 0) = false := by
      rw [taxicab_toNat x y hx hy]
      simp only [bne_eq_false_iff_eq]
      omega
    rw [piece_tile_fg, piece_tile_bg, hb]
    exact ⟨rfl, rfl⟩

/-- Claim C4: for every board coordinate `(x, y)` with `0 ≤ x, y < 8` and every
offset, `redraw_board` emits the piece glyph for `(x, y)` at exactly the screen
position `offset + (1 + 2x, 1 + 2*(width-1-y))`, and rank `y = 0` renders at a
strictly larger screen `y` (the visually bottom row) than rank `y = width-1`. -/
theorem C4_piece_position {P : Type} (sz : P → Option Char) (gp : coord → P)
    (offset : coord) (x y : Int)
    (hx0 : 0 ≤ x) (hx : x < 8) (hy0 : 0 ≤ y) (hy : y < 8) :
    (client.piece_tile sz gp offset x y).pos
        = offset + coord.mk (1 + 2 * x) (1 + 2 * ((board.width : Int) - 1 - y))
  ∧ client.piece_tile sz gp offset x y ∈ client.redraw_board_pieces sz gp offset
  ∧ (client.piece_tile sz gp offset x 0).pos.y
      > (client.piece_tile sz gp offset x ((board.width : Int) - 1)).pos.y := by
  refine ⟨?_, ?_, ?_⟩
  · rw [piece_tile_pos]
    ext
    · simp only [coord.add_x]
      ring
    · simp only [coord.add_y, board.width]
      ring
  · have hx' : ((x.toNat : Nat) : Int) = x := by omega
    have hy' : ((y.toNat : Nat) : Int) = y := by omega
    simp only [client.redraw_board_pieces, List.mem_flatMap, List.mem_range, board.width]
    refine ⟨x.toNat, by omega, y.toNat, by omega, ?_⟩
    rw [hx', hy']
    exact List.mem_singleton.mpr rfl
  · rw [piece_tile_pos, piece_tile_pos]
    simp only [coord.add_y, board.width]
    omega

/-- Witness for C4 at `(x, y) = (2, 3)` with offset `(0, 0)` and the trivial
collaborators. -/
theorem C4_witness :
    (client.piece_tile empty_serializer trivial_engine (coord.mk 0 0) 2 3).pos
        = coord.mk 0 0 + coord.mk (1 + 2 * 2) (1 + 2 * ((board.width : Int) - 1 - 3))
  ∧ client.piece_tile empty_serializer trivial_engine (coord.mk 0 0) 2 3
      ∈ client.redraw_board_pieces empty_serializer trivial_engine (coord.mk 0 0)
  ∧ (client.piece_tile empty_serializer trivial_engine (coord.mk 0 0) 2 0).pos.y
      > (client.piece_tile empty_serializer trivial_engine (coord.mk 0 0) 2
            ((board.width : Int) - 1)).pos.y :=
  C4_piece_position empty_serializer trivial_engine (coord.mk 0 0) 2 3
    (by decide) (by decide) (by decide) (by decide)

/-- Claim C5: for every board coordinate with `0 ≤ x, y < 8`, the colors chosen by
`redraw_board` are a function of `(x+y) mod 2` alone; a white tile (odd parity) gets
foreground black and background white and a black tile the inverse; `(0,0)` and
`(7,7)` receive the same colors and `(0,1)` the opposite colors. -/
theorem C5_tile_parity {P : Type} (sz : P → Option Char) (gp : coord → P) (offset : coord)
    (x y x' y' : Int)
    (hx0 : 0 ≤ x) (hx : x < 8) (hy0 : 0 ≤ y) (hy : y < 8)
    (hx0' : 0 ≤ x') (hx' : x' < 8) (hy0' : 0 ≤ y') (hy' : y' < 8)
    (hpar : (x + y) % 2 = (x' + y') % 2) :
    ((client.piece_tile sz gp offset x y).fg = (client.piece_tile sz gp offset x' y').fg
      ∧ (client.piece_tile sz gp offset x y).bg = (client.piece_tile sz gp offset x' y').bg)
  ∧ ((x + y) % 2 = 1 →
      (client.piece_tile sz gp offset x y).fg = some color_black ∧
      (client.piece_tile sz gp offset x y).bg = some color_white)
  ∧ ((x + y) % 2 = 0 →
      (client.piece_tile sz gp offset x y).fg = some color_white ∧
      (client.piece_tile sz gp offset x y).bg = some color_black)
  ∧ ((client.piece_tile sz gp offset 0 0).fg = (client.piece_tile sz gp offset 7 7).fg
      ∧ (client.piece_tile sz gp offset 0 0).bg = (client.piece_tile sz gp offset 7 7).bg)
  ∧ ((client.piece_tile sz gp offset 0 1).fg = (client.piece_tile sz gp offset 0 0).bg
      ∧ (client.piece_tile sz gp offset 0 1).bg = (client.piece_tile sz gp offset 0 0).fg
      ∧ (client.piece_tile sz gp offset 0 1).fg ≠ (client.piece_tile sz gp offset 0 0).fg) := by
  have hc := piece_tile_colors sz gp offset x y hx0 hy0
  have hc' := piece_tile_colors sz gp offset x' y' hx0' hy0'
  refine ⟨?_, hc.1, hc.2, ?_, ?_⟩
  · rcases Int.emod_two_eq_zero_or_one (x + y) with h | h
    · obtain ⟨hfg, hbg⟩ := hc.2 h
      obtain ⟨hfg', hbg'⟩ := hc'.2 (hpar ▸ h)
      rw [hfg, hbg, hfg', hbg']
      exact ⟨rfl, rfl⟩
    · obtain ⟨hfg, hbg⟩ := hc.1 h
      obtain ⟨hfg', hbg'⟩ := hc'.1 (hpar ▸ h)
      rw [hfg, hbg, hfg', hbg']
      exact ⟨rfl, rfl⟩
  · rw [piece_tile_fg, piece_tile_fg, piece_tile_bg, piece_tile_bg]
    exact ⟨rfl, rfl⟩
  · rw [piece_tile_fg, piece_tile_fg, piece_tile_bg, piece_tile_bg]
    refine ⟨rfl, rfl, ?_⟩
    intro h
    simp only [coord.taxicab_length] at h
    exact Option.noConfusion h fun h => console_color.noConfusion h

/-- Witness for C5 at `(x, y) = (1, 2)` and `(x', y') = (4, 7)` (both odd parity). -/
theorem C5_witness :
    ((client.piece_tile empty_serializer trivial_engine (coord.mk 0 0) 1 2).fg
        = (client.piece_tile empty_serializer trivial_engine (coord.mk 0 0) 4 7).fg
      ∧ (client.piece_tile empty_serializer trivial_engine (coord.mk 0 0) 1 2).bg
        = (client.piece_tile empty_serializer trivial_engine (coord.mk 0 0) 4 7).bg)
  ∧ (((1 : Int) + 2) % 2 = 1 →
      (client.piece_tile empty_serializer trivial_engine (coord.mk 0 0) 1 2).fg
          = some color_black ∧
      (client.piece_tile empty_serializer trivial_engine (coord.mk 0 0) 1 2).bg
          = some color_white)
  ∧ (((1 : Int) + 2) % 2 = 0 →
      (client.piece_tile empty_serializer trivial_engine (coord.mk 0 0) 1 2).fg
          = some color_white ∧
      (client.piece_tile empty_serializer trivial_engine (coord.mk 0 0) 1 2).bg
          = some color_black)
  ∧ ((client.piece_tile empty_serializer trivial_engine (coord.mk 0 0) 0 0).fg
        = (client.piece_tile empty_serializer trivial_engine (coord.mk 0 0) 7 7).fg
      ∧ (client.piece_tile empty_serializer trivial_engine (coord.mk 0 0) 0 0).bg
        = (client.piece_tile empty_serializer trivial_engine (coord.mk 0 0) 7 7).bg)
  ∧ ((client.piece_tile empty_serializer trivial_engine (coord.mk 0 0) 0 1).fg
        = (client.piece_tile empty_serializer trivial_engine (coord.mk 0 0) 0 0).bg
      ∧ (client.piece_tile empty_serializer trivial_engine (coord.mk 0 0) 0 1).bg
        = (client.piece_tile empty_serializer trivial_engine (coord.mk 0 0) 0 0).fg
      ∧ (client.piece_tile empty_serializer trivial_engine (coord.mk 0 0) 0 1).fg
        ≠ (client.piece_tile empty_serializer trivial_engine (coord.mk 0 0) 0 0).fg) :=
  C5_tile_parity empty_serializer trivial_engine (coord.mk 0 0) 1 2 4 7
    (by decide) (by decide) (by decide) (by decide)
    (by decide) (by decide) (by decide) (by decide) (by decide)

/-- Claim C9: for every board coordinate, when serialization yields no character the
piece pass renders the blank glyph `' '`, and the piece-rendering step is total: the
emitted glyph is always `serialize_piece(piece).value_or(' ')`, for every piece
value. -/
theorem C9_blank_fallback {P : Type} (sz : P → Option Char) (gp : coord → P)
    (offset : coord) (x y : Int)
    (h : sz (gp (coord.mk x y)) = none) :
    (client.piece_tile sz gp offset x y).glyph = ' '
  ∧ (∀ u v : Int, (client.piece_tile sz gp offset u v).glyph
      = (sz (gp (coord.mk u v))).getD ' ') := by
  refine ⟨?_, fun u v => rfl⟩
  rw [piece_tile_glyph, h]
  rfl

/-- Witness for C9 with the all-empty serializer at `(x, y) = (5, 5)`. -/
theorem C9_witness :
    (client.piece_tile empty_serializer trivial_engine (coord.mk 0 0) 5 5).glyph = ' '
  ∧ (∀ u v : Int,
      (client.piece_tile empty_serializer trivial_engine (coord.mk 0 0) u v).glyph
        = (empty_serializer (trivial_engine (coord.mk u v))).getD ' ') :=
  C9_blank_fallback empty_serializer trivial_engine (coord.mk 0 0) 5 5 rfl

theorem pieces_rel_odd {P : Type} (sz : P → Option Char) (gp : coord → P) (offset : coord) :
    ∀ e ∈ client.redraw_board_pieces sz gp offset,
      (e.pos.x - offset.x) % 2 = 1 ∧ (e.pos.y - offset.y) % 2 = 1 := by
  intro e he
  simp only [client.redraw_board_pieces, List.mem_flatMap, List.mem_range,
    List.mem_singleton] at he
  obtain ⟨a, ha, b, hb, rfl⟩ := he
  rw [piece_tile_pos]
  simp only [coord.add_x, coord.add_y, board.width]
  omega

theorem frame_rel_even (offset : coord) :
    ∀ e ∈ client.redraw_board_frame offset,
      (e.pos.x - offset.x) % 2 = 0 ∨ (e.pos.y - offset.y) % 2 = 0 := by
  intro e he
  simp only [client.redraw_board_frame, List.mem_append] at he
  rcases he with ((hl | hi) | hc) | hd
  · simp only [client.frame_lines, List.mem_flatMap, List.mem_range,
      List.mem_cons, List.mem_singleton, List.not_mem_nil, or_false] at hl
    obtain ⟨a, ha, b, hb, rfl | rfl⟩ := hl
    · left
      simp only [coord.add_x]
      omega
    · right
      simp only [coord.add_y]
      omega
  · simp only [client.frame_intersections, List.mem_flatMap, List.mem_range,
      List.mem_singleton] at hi
    obtain ⟨a, ha, b, hb, rfl⟩ := hi
    left
    simp only [coord.add_x]
    omega
  · simp only [client.frame_corners, List.mem_cons, List.mem_singleton,
      List.not_mem_nil, or_false] at hc
    rcases hc with rfl | rfl | rfl | rfl <;>
      · left
        simp only [coord.add_x, board.width]
        omega
  · simp only [client.frame_edges, List.mem_flatMap, List.mem_range,
      List.mem_cons, List.mem_singleton, List.not_mem_nil, or_false] at hd
    obtain ⟨a, ha, rfl | rfl | rfl | rfl⟩ := hd
    · right
      simp only [coord.add_y]
      omega
    · right
      simp only [coord.add_y, board.width]
      omega
    · left
      simp only [coord.add_x]
      omega
    · left
      simp only [coord.add_x, board.width]
      omega

/-- Claim C10: for every offset the board-to-screen map is injective on the board
(distinct squares render at distinct cells); every piece-tile position has both
coordinates odd relative to the offset, every frame glyph has at least one even
relative coordinate, and hence no piece render call targets a cell written by the
frame pass and vice versa. -/
theorem C10_disjoint_positions {P : Type} (sz : P → Option Char) (gp : coord → P)
    (offset : coord) (x y x' y' : Int)
    (hx0 : 0 ≤ x) (hx : x < 8) (hy0 : 0 ≤ y) (hy : y < 8)
    (hx0' : 0 ≤ x') (hx' : x' < 8) (hy0' : 0 ≤ y') (hy' : y' < 8) :
    ((client.piece_tile sz gp offset x y).pos = (client.piece_tile sz gp offset x' y').pos →
        x = x' ∧ y = y')
  ∧ (∀ e ∈ client.redraw_board_pieces sz gp offset,
        (e.pos.x - offset.x) % 2 = 1 ∧ (e.pos.y - offset.y) % 2 = 1)
  ∧ (∀ e ∈ client.redraw_board_frame offset,
        (e.pos.x - offset.x) % 2 = 0 ∨ (e.pos.y - offset.y) % 2 = 0)
  ∧ (∀ ef ∈ client.redraw_board_frame offset,
       ∀ ep ∈ client.redraw_board_pieces sz gp offset, ef.pos ≠ ep.pos) := by
  refine ⟨?_, pieces_rel_odd sz gp offset, frame_rel_even offset, ?_⟩
  · intro h
    rw [piece_tile_pos, piece_tile_pos] at h
    have h1 := congrArg coord.x h
    have h2 := congrArg coord.y h
    simp only [coord.add_x, coord.add_y, board.width] at h1 h2
    omega
  · intro ef hef ep hep hcontra
    have ho := pieces_rel_odd sz gp offset ep hep
    have he := frame_rel_even offset ef hef
    have h1 := congrArg coord.x hcontra
    have h2 := congrArg coord.y hcontra
    rcases he with he | he
    · omega
    · omega

/-- Witness for C10 at squares `(1, 2)` and `(1, 2)` with offset `(3, 4)`. -/
theorem C10_witness :
    ((client.piece_tile empty_serializer trivial_engine (coord.mk 3 4) 1 2).pos
        = (client.piece_tile empty_serializer trivial_engine (coord.mk 3 4) 1 2).pos →
        (1 : Int) = 1 ∧ (2 : Int) = 2)
  ∧ (∀ e ∈ client.redraw_board_pieces empty_serializer trivial_engine (coord.mk 3 4),
        (e.pos.x - (coord.mk 3 4).x) % 2 = 1 ∧ (e.pos.y - (coord.mk 3 4).y) % 2 = 1)
  ∧ (∀ e ∈ client.redraw_board_frame (coord.mk 3 4),
        (e.pos.x - (coord.mk 3 4).x) % 2 = 0 ∨ (e.pos.y - (coord.mk 3 4).y) % 2 = 0)
  ∧ (∀ ef ∈ client.redraw_board_frame (coord.mk 3 4),
       ∀ ep ∈ client.redraw_board_pieces empty_serializer trivial_engine (coord.mk 3 4),
         ef.pos ≠ ep.pos) :=
  C10_disjoint_positions empty_serializer trivial_engine (coord.mk 3 4) 1 2 1 2
    (by decide) (by decide) (by decide) (by decide)
    (by decide) (by decide) (by decide) (by decide)

/-- Claim C6: for every offset, one call of `redraw_board` emits exactly
`width * width = 64` piece-tile render calls; the frame pass emits exactly
`(width-1)^2 = 49` internal four-way intersections, 4 corner glyphs,
`4*(width-1) = 28` edge T-intersections, and `width+1` vertical and `width+1`
horizontal separator lines of `width` segments each: the lines section has exactly
`2*(width+1)*width` events and contains, for every `i ≤ width` and `j < width`, the
vertical segment at `offset + (2i, 1+2j)` and the horizontal segment at
`offset + (1+2j, 2i)`. -/
theorem C6_render_counts {P : Type} (sz : P → Option Char) (gp : coord → P)
    (offset : coord) :
    (client.redraw_board_pieces sz gp offset).length = board.width * board.width
  ∧ (client.frame_intersections offset).length = (board.width - 1) * (board.width - 1)
  ∧ (∀ e ∈ client.frame_intersections offset, e.glyph = '╬')
  ∧ (client.frame_corners offset).length = 4
  ∧ (client.frame_edges offset).length = 4 * (board.width - 1)
  ∧ (∀ e ∈ client.frame_edges offset,
       e.glyph = '╦' ∨ e.glyph = '╩' ∨ e.glyph = '╠' ∨ e.glyph = '╣')
  ∧ (client.frame_lines offset).length = 2 * ((board.width + 1) * board.width)
  ∧ (∀ i : Nat, i ≤ board.width → ∀ j : Nat, j < board.width →
       render_event.mk (offset + coord.mk ((i : Int) * 2) (1 + (j : Int) * 2)) '║' none none
           ∈ client.frame_lines offset
         ∧ render_event.mk (offset + coord.mk (1 + (j : Int) * 2) ((i : Int) * 2)) '═' none none
           ∈ client.frame_lines offset) := by
  refine ⟨?_, ?_, ?_, rfl, ?_, ?_, ?_, ?_⟩
  · simp only [client.redraw_board_pieces]
    rw [length_flatMap_const (List.range board.width)
      (fun x => (List.range board.width).flatMap fun y =>
        [client.piece_tile sz gp offset (x : Int) (y : Int)]) board.width
      (fun a => by
        rw [length_flatMap_const (List.range board.width)
          (fun y => [client.piece_tile sz gp offset (a : Int) (y : Int)]) 1 (fun b => rfl)]
        simp)]
    simp [board.width]
  · simp only [client.frame_intersections]
    rw [length_flatMap_const (List.range (board.width - 1))
      (fun i => (List.range (board.width - 1)).flatMap fun j =>
        [render_event.mk (offset + coord.mk (2 + (i : Int) * 2) (2 + (j : Int) * 2)) '╬'
          none none]) (board.width - 1)
      (fun a => by
        rw [length_flatMap_const (List.range (board.width - 1))
          (fun j => [render_event.mk (offset + coord.mk (2 + (a : Int) * 2) (2 + (j : Int) * 2))
            '╬' none none]) 1 (fun b => rfl)]
        simp)]
    simp [board.width]
  · intro e he
    simp only [client.frame_intersections, List.mem_flatMap, List.mem_range,
      List.mem_singleton] at he
    obtain ⟨a, ha, b, hb, rfl⟩ := he
    rfl
  · simp only [client.frame_edges]
    rw [length_flatMap_const (List.range (board.width - 1))
      (fun i =>
        [render_event.mk (offset + coord.mk (2 + (i : Int) * 2) 0) '╦' none none,
         render_event.mk (offset + coord.mk (2 + (i : Int) * 2) ((board.width : Int) * 2)) '╩'
           none none,
         render_event.mk (offset + coord.mk 0 (2 + (i : Int) * 2)) '╠' none none,
         render_event.mk (offset + coord.mk ((board.width : Int) * 2) (2 + (i : Int) * 2)) '╣'
           none none]) 4 (fun a => rfl)]
    simp [board.width, Nat.mul_comm]
  · intro e he
    simp only [client.frame_edges, List.mem_flatMap, List.mem_range,
      List.mem_cons, List.mem_singleton, List.not_mem_nil, or_false] at he
    obtain ⟨a, ha, rfl | rfl | rfl | rfl⟩ := he
    · exact Or.inl rfl
    · exact Or.inr (Or.inl rfl)
    · exact Or.inr (Or.inr (Or.inl rfl))
    · exact Or.inr (Or.inr (Or.inr rfl))
  · simp only [client.frame_lines]
    rw [length_flatMap_const (List.range (board.width + 1))
      (fun i => (List.range board.width).flatMap fun j =>
        [render_event.mk (offset + coord.mk ((i : Int) * 2) (1 + (j : Int) * 2)) '║' none none,
         render_event.mk (offset + coord.mk (1 + (j : Int) * 2) ((i : Int) * 2)) '═' none none])
      (2 * board.width)
      (fun a => by
        rw [length_flatMap_const (List.range board.width)
          (fun j => [render_event.mk (offset + coord.mk ((a : Int) * 2) (1 + (j : Int) * 2)) '║'
              none none,
            render_event.mk (offset + coord.mk (1 + (j : Int) * 2) ((a : Int) * 2)) '═'
              none none]) 2 (fun b => rfl)]
        simp [board.width, Nat.mul_comm])]
    simp [board.width]
  · intro i hi j hj
    constructor
    · simp only [client.frame_lines, List.mem_flatMap, List.mem_range]
      refine ⟨i, by omega, j, by omega, ?_⟩
      exact List.mem_cons_self _ _
    · simp only [client.frame_lines, List.mem_flatMap, List.mem_range]
      refine ⟨i, by omega, j, by omega, ?_⟩
      exact List.mem_cons_of_mem _ (List.mem_singleton.mpr rfl)

/-- Witness for C6: the counts at offset `(0, 0)` with the trivial collaborators, and
the two separator-line segments for `i = 8`, `j = 7`. -/
theorem C6_witness :
    (client.redraw_board_pieces empty_serializer trivial_engine (coord.mk 0 0)).length
        = board.width * board.width
  ∧ (client.frame_intersections (coord.mk 0 0)).length
        = (board.width - 1) * (board.width - 1)
  ∧ (client.frame_corners (coord.mk 0 0)).length = 4
  ∧ (client.frame_edges (coord.mk 0 0)).length = 4 * (board.width - 1)
  ∧ (client.frame_lines (coord.mk 0 0)).length = 2 * ((board.width + 1) * board.width)
  ∧ render_event.mk (coord.mk 0 0 + coord.mk (((8 : Nat) : Int) * 2)
        (1 + ((7 : Nat) : Int) * 2)) '║' none none
      ∈ client.frame_lines (coord.mk 0 0)
  ∧ render_event.mk (coord.mk 0 0 + coord.mk (1 + ((7 : Nat) : Int) * 2)
        (((8 : Nat) : Int) * 2)) '═' none none
      ∈ client.frame_lines (coord.mk 0 0) := by
  have h := C6_render_counts empty_serializer trivial_engine (coord.mk 0 0)
  obtain ⟨h1, h2, _, h4, h5, _, h7, h8⟩ := h
  have hseg := h8 8 (by decide) 7 (by decide)
  exact ⟨h1, h2, h4, h5, h7, hseg.1, hseg.2⟩

theorem accept_after_append (init : Bool) (l1 l2 : List effect) :
    client.accept_after init (l1 ++ l2)
      = client.accept_after (client.accept_after init l1) l2 := by
  induction l1 generalizing init with
  | nil => rfl
  | cons e t ih => cases e <;> simp [client.accept_after, ih]

theorem accept_after_no_set (init : Bool) (l : List effect)
    (h : ∀ b, effect.set_accept_input b ∉ l) : client.accept_after init l = init := by
  induction l with
  | nil => rfl
  | cons e t ih =>
    have ht : ∀ b, effect.set_accept_input b ∉ t := fun b hb => h b (List.mem_cons_of_mem _ hb)
    cases e <;> simp only [client.accept_after] <;>
      first
        | exact absurd (List.mem_cons_self _ _) (h _)
        | exact ih ht

/-- Claim C3: for every registered command callback invocation, the console's
accept-input flag is set to false before the command body runs and set back to true
on every exit path (the result — including an error — is passed through while the
re-enable effect is still emitted), so input is not accepted while the command
executes and is accepted again immediately after it returns. -/
theorem C3_console_lock {B E : Type}
    (func : List String → client.state B → Except E (client.state B) × List effect)
    (args : List String) (s : client.state B) :
    (client.bind_client_command func args s).1 = (func args s).1
  ∧ (client.bind_client_command func args s).2
      = effect.set_accept_input false :: (func args s).2 ++ [effect.set_accept_input true]
  ∧ (∀ init, client.accept_after init (client.bind_client_command func args s).2 = true)
  ∧ client.accept_after true [effect.set_accept_input false] = false
  ∧ (∀ pre suf, (func args s).2 = pre ++ suf →
       (∀ b, effect.set_accept_input b ∉ pre) →
       ∀ init, client.accept_after init (effect.set_accept_input false :: pre) = false) := by
  refine ⟨rfl, rfl, ?_, rfl, ?_⟩
  · intro init
    show client.accept_after init
      (effect.set_accept_input false :: ((func args s).2 ++ [effect.set_accept_input true])) = true
    simp only [client.accept_after]
    rw [accept_after_append]
    rfl
  · intro pre suf heq hno init
    simp only [client.accept_after]
    exact accept_after_no_set false pre hno

/-- Witness for C3 with a command body that raises an error: the trace still closes
with the re-enable effect and the flag ends up true. -/
theorem C3_witness :
    (client.bind_client_command failing_command [] (client.state.mk () false)).2
        = [effect.set_accept_input false, effect.set_accept_input true]
  ∧ client.accept_after true
      (client.bind_client_command failing_command [] (client.state.mk () false)).2 = true
  ∧ client.accept_after true (effect.set_accept_input false :: ([] : List effect)) = false := by
  have h := C3_console_lock failing_command [] (client.state.mk () false)
  refine ⟨?_, h.2.2.1 true, h.2.2.2.2 [] [] rfl (fun b hb => by cases hb) true⟩
  rw [h.2.1]
  rfl

theorem foldl_quit_fixed {B : Type} (t : List (List String)) (b : B) :
    t.foldl (fun st a => client.command_quit a st) (client.state.mk b true)
      = client.state.mk b true := by
  induction t with
  | nil => rfl
  | cons a r ih =>
    simp only [List.foldl_cons, client.command_quit]
    exact ih

/-- Claim C8: executing the quit command one or more times (any argument lists)
leaves `should_quit` true, keeps the rest of the client state unchanged, ignores its
arguments, raises no error, and has the same effect on client state as a single
invocation. -/
theorem C8_quit_idempotent {B : Type} (argss : List (List String)) (s : client.state B)
    (h : argss ≠ []) :
    argss.foldl (fun st a => client.command_quit a st) s = client.state.mk s.board true
  ∧ (argss.foldl (fun st a => client.command_quit a st) s).board = s.board
  ∧ client.should_quit (argss.foldl (fun st a => client.command_quit a st) s) = true
  ∧ (∀ args args', client.command_quit args s = client.command_quit args' s)
  ∧ (∀ args, client.command_quit args s = client.state.mk s.board true)
  ∧ (∀ args, (@client.quit_dispatched B String args s).1
        = Except.ok (client.state.mk s.board true))
  ∧ (∀ args, argss.foldl (fun st a => client.command_quit a st) s
        = client.command_quit args s) := by
  obtain ⟨a, t, rfl⟩ := List.exists_cons_of_ne_nil h
  have h1 : (a :: t).foldl (fun st a => client.command_quit a st) s
      = client.state.mk s.board true := by
    simp only [List.foldl_cons, client.command_quit]
    exact foldl_quit_fixed t s.board
  refine ⟨h1, by rw [h1], by rw [h1]; rfl, fun _ _ => rfl, fun _ => rfl, fun _ => rfl,
    fun _ => by rw [h1]; rfl⟩

/-- Witness for C8: two consecutive quit invocations on a fresh client state. -/
theorem C8_witness :
    ([["arg"], []] : List (List String)).foldl (fun st a => client.command_quit a st)
        (client.state.mk () false) = client.state.mk () true
  ∧ (∀ args : List String,
      (@client.quit_dispatched Unit String args (client.state.mk () false)).1
        = Except.ok (client.state.mk () true)) := by
  have h := C8_quit_idempotent [["arg"], []] (client.state.mk () false) (by simp)
  exact ⟨h.1, h.2.2.2.2.2.1⟩

/-- Claim C2 is violated by the code: the dispatched quit command writes
`m_should_quit` with no client mutex held (`BIND_CLIENT_COMMAND` only constructs a
`console_lock`), while the key callback, `should_quit` and `load_fen` do hold the
mutex for their accesses; hence not every client-state access holds the lock. -/
theorem C2_quit_write_unlocked :
    client.access.mk client.access_kind.quit_write false ∈ client.client_accesses
  ∧ (∀ a ∈ client.key_callback_accesses ++ client.should_quit_accesses ++
        client.load_fen_accesses, a.mutex_held = true)
  ∧ ¬ (∀ a ∈ client.client_accesses, a.mutex_held = true) := by
  refine ⟨by decide, by decide, ?_⟩
  intro hall
  have := hall (client.access.mk client.access_kind.quit_write false) (by decide)
  cases this

/-- Claim C1 as stated is false on the code: with an invalid initial position,
`create` does return no instance, but a console IS created on the failing path —
the constructor runs `game_console::create()` before the position is ever
validated. -/
theorem C1_counterexample :
    (client.create reject_all_boards () empty_serializer trivial_get_piece
        (some "invalid")).1 = none
  ∧ effect.console_create ∈ (client.create reject_all_boards () empty_serializer
        trivial_get_piece (some "invalid")).2 := by
  constructor
  · rfl
  · decide

/-- Claim C1 as amended: for every invalid initial position string, `create` returns
no instance, the key-callback registration is fully unwound (the constructor's
`add_key_callback` is paired with the destructor's `remove_key_callback`), no render
call occurs and input acceptance is never enabled; a console is created by the
constructor but is discarded together with the failed instance. -/
theorem C1_create_failure {B P : Type} (board_create : String → Option B)
    (create_default : B) (sz : P → Option Char) (gp : B → coord → P) (f : String)
    (h : board_create f = none) :
    client.create board_create create_default sz gp (some f)
      = (none, [effect.set_board, effect.add_key_callback, effect.console_create,
          effect.remove_key_callback])
  ∧ (∀ ev, effect.render ev ∉ (client.create board_create create_default sz gp (some f)).2)
  ∧ (∀ b, effect.set_accept_input b
        ∉ (client.create board_create create_default sz gp (some f)).2)
  ∧ (client.create board_create create_default sz gp (some f)).2.count
        effect.add_key_callback
      = (client.create board_create create_default sz gp (some f)).2.count
        effect.remove_key_callback := by
  have htr : client.create board_create create_default sz gp (some f)
      = (none, [effect.set_board, effect.add_key_callback, effect.console_create,
          effect.remove_key_callback]) := by
    simp [client.create, client.ctor, client.load_fen, h]
  refine ⟨htr, ?_, ?_, ?_⟩
  · intro ev
    rw [htr]
    simp
  · intro b
    rw [htr]
    simp
  · rw [htr]
    rfl

/-- Witness for C1: a validator that rejects every position string. -/
theorem C1_witness :
    reject_all_boards "bad-fen" = none
  ∧ client.create reject_all_boards () empty_serializer trivial_get_piece (some "bad-fen")
      = (none, [effect.set_board, effect.add_key_callback, effect.console_create,
          effect.remove_key_callback]) :=
  ⟨rfl, (C1_create_failure reject_all_boards () empty_serializer trivial_get_piece
    "bad-fen" rfl).1⟩

theorem count_set_accept_input_map_render (l : List render_event) (b : Bool) :
    (l.map effect.render).count (effect.set_accept_input b) = 0 := by
  rw [List.count_eq_zero]
  intro hm
  simp only [List.mem_map] at hm
  obtain ⟨e, _, he⟩ := hm
  cases he

/-- Claim C7: on every successful creation the trace is, in order: the constructor
(engine state set to the default board, key callback registered, console created),
optionally a second engine-state set from the parsed position, then the command
registration (`quit` alias and callback), then the full redraw's render calls, and
finally — exactly once, as the very last step — switching the console to accept
input. -/
theorem C7_creation_order {B P : Type} (board_create : String → Option B)
    (create_default : B) (sz : P → Option Char) (gp : B → coord → P)
    (fen : Option String) (c : client.state B) (tr : List effect)
    (h : client.create board_create create_default sz gp fen = (some c, tr)) :
    (∃ load_tr, (load_tr = [] ∨ load_tr = [effect.set_board]) ∧
      tr = [effect.set_board, effect.add_key_callback, effect.console_create] ++ load_tr ++
        [effect.add_alias "quit", effect.set_callback] ++
        (client.redraw sz (gp c.board)).map effect.render ++
        [effect.set_accept_input true])
  ∧ tr.count (effect.set_accept_input true) = 1
  ∧ tr.getLast? = some (effect.set_accept_input true) := by
  have hmain : ∃ load_tr, (load_tr = [] ∨ load_tr = [effect.set_board]) ∧
      tr = [effect.set_board, effect.add_key_callback, effect.console_create] ++ load_tr ++
        [effect.add_alias "quit", effect.set_callback] ++
        (client.redraw sz (gp c.board)).map effect.render ++
        [effect.set_accept_input true] := by
    cases fen with
    | none =>
      simp only [client.create, client.ctor, client.register_commands] at h
      obtain ⟨h1, h2⟩ := Prod.mk.injEq _ _ _ _ ▸ h
      obtain rfl := Option.some.injEq _ _ ▸ h1
      refine ⟨[], Or.inl rfl, ?_⟩
      rw [← h2]
      simp
    | some f =>
      cases hb : board_create f with
      | none =>
        simp [client.create, client.load_fen, hb] at h
      | some b =>
        simp only [client.create, client.ctor, client.load_fen, client.register_commands,
          hb] at h
        simp only [if_true] at h
        obtain ⟨h1, h2⟩ := Prod.mk.injEq _ _ _ _ ▸ h
        obtain rfl := Option.some.injEq _ _ ▸ h1
        refine ⟨[effect.set_board], Or.inr rfl, ?_⟩
        rw [← h2]
  refine ⟨hmain, ?_, ?_⟩
  · obtain ⟨load_tr, hload, rfl⟩ := hmain
    rcases hload with rfl | rfl <;>
      simp [List.count_append, List.count_cons, count_set_accept_input_map_render]
  · obtain ⟨load_tr, hload, rfl⟩ := hmain
    have hre : [effect.set_board, effect.add_key_callback, effect.console_create] ++ load_tr ++
        [effect.add_alias "quit", effect.set_callback] ++
        (client.redraw sz (gp c.board)).map effect.render ++
        [effect.set_accept_input true]
      = ([effect.set_board, effect.add_key_callback, effect.console_create] ++ load_tr ++
        [effect.add_alias "quit", effect.set_callback] ++
        (client.redraw sz (gp c.board)).map effect.render) ++
        [effect.set_accept_input true] := by
      simp [List.append_assoc]
    rw [hre, List.getLast?_concat]

/-- Witness for C7: a successful creation with no initial position supplied. -/
theorem C7_witness :
    (∃ load_tr, (load_tr = [] ∨ load_tr = [effect.set_board]) ∧
      (client.create accept_all_boards () empty_serializer trivial_get_piece none).2
        = [effect.set_board, effect.add_key_callback, effect.console_create] ++ load_tr ++
          [effect.add_alias "quit", effect.set_callback] ++
          (client.redraw empty_serializer
            (trivial_get_piece (client.state.mk () false).board)).map effect.render ++
          [effect.set_accept_input true])
  ∧ (client.create accept_all_boards () empty_serializer trivial_get_piece none).2.count
        (effect.set_accept_input true) = 1
  ∧ (client.create accept_all_boards () empty_serializer trivial_get_piece
        none).2.getLast? = some (effect.set_accept_input true) :=
  C7_creation_order accept_all_boards () empty_serializer trivial_get_piece none
    (client.state.mk () false)
    (client.create accept_all_boards () empty_serializer trivial_get_piece none).2 rfl

end libchess.console
